import Mathlib

/-!
Shallow embedding of the expression pipeline in `src/main.py`:
lexer (ordered first-match-wins pattern scan), recursive-descent parser with
a clamped token cursor, tree evaluator with Python true division, and the
read-eval-print loop.  Strings are modelled as `List Char`; Python numbers
(ints and the floats produced by `/`) are modelled as exact rationals `Rat`;
Python exceptions are modelled as `Except String` carrying the exception's
message; the parser's (possibly non-terminating) `while` loops are modelled
with a fuel parameter, `Res.div` marking fuel exhaustion, so that
"`Res.div` for every fuel" expresses non-termination.
-/

instance {ε α : Type} [DecidableEq ε] [DecidableEq α] : DecidableEq (Except ε α) := fun x y =>
  match x, y with
  | .error a, .error b =>
    if h : a = b then .isTrue (by rw [h]) else .isFalse (fun hc => h (Except.error.inj hc))
  | .ok a, .ok b =>
    if h : a = b then .isTrue (by rw [h]) else .isFalse (fun hc => h (Except.ok.inj hc))
  | .error _, .ok _ => .isFalse (fun hc => Except.noConfusion hc)
  | .ok _, .error _ => .isFalse (fun hc => Except.noConfusion hc)

namespace MyLang

/-- The double-quote character `"` (written via its code point). -/
def quoteChar : Char := Char.ofNat 34

/-- The tab character. -/
def tabChar : Char := Char.ofNat 9

/-- The newline character. -/
def nlChar : Char := Char.ofNat 10

/-- The left-brace character. -/
def lbraceChar : Char := Char.ofNat 123

/-- The right-brace character. -/
def rbraceChar : Char := Char.ofNat 125

/-- `\d` of the NUMBER pattern (ASCII decimal digit). -/
def isDigitChar (c : Char) : Bool := decide ('0' ≤ c) && decide (c ≤ '9')

/-- `[a-zA-Z_]`, the first character of the IDENTIFIER pattern. -/
def isIdentStart (c : Char) : Bool :=
  (decide ('a' ≤ c) && decide (c ≤ 'z')) || (decide ('A' ≤ c) && decide (c ≤ 'Z')) || decide (c = '_')

/-- `[a-zA-Z0-9_]`, the continuation characters of the IDENTIFIER pattern. -/
def isIdentChar (c : Char) : Bool := isIdentStart c || isDigitChar c

/-- `[+\-*/]`, the OPERATOR pattern. -/
def isOpChar (c : Char) : Bool :=
  decide (c = '+') || decide (c = '-') || decide (c = '*') || decide (c = '/')

/-- `[ \t]`, the SKIP pattern. -/
def isSkipChar (c : Char) : Bool := decide (c = ' ') || decide (c = tabChar)

/-- Token kinds, in the order of the pattern dictionary in `Lexer.tokenize`. -/
inductive TType
  | NUMBER | STRING | IDENTIFIER | ASSIGN | OPERATOR
  | LPAREN | RPAREN | LBRACE | RBRACE | NEWLINE
  deriving DecidableEq

/-- `Token`: a kind together with the matched literal text. -/
structure Token where
  type : TType
  value : List Char
  deriving DecidableEq

/-- Anchored match of `\d+`: the maximal nonempty digit run at the cursor.
Returns (matched text, rest). -/
def matchNumber (s : List Char) : Option (List Char × List Char) :=
  match s.takeWhile isDigitChar with
  | [] => none
  | m => some (m, s.dropWhile isDigitChar)

/-- Anchored match of the STRING pattern: a quote, then the characters up
to the next quote, then that closing quote; fails without a closing quote. -/
def matchString (s : List Char) : Option (List Char × List Char) :=
  match s with
  | c :: rest =>
    if c = quoteChar then
      match rest.dropWhile (fun d => !(d = quoteChar)) with
      | c2 :: rest2 =>
        if c2 = quoteChar then
          some (quoteChar :: (rest.takeWhile (fun d => !(d = quoteChar)) ++ [quoteChar]), rest2)
        else none
      | [] => none
    else none
  | [] => none

/-- Anchored match of `[a-zA-Z_][a-zA-Z0-9_]*`. -/
def matchIdent (s : List Char) : Option (List Char × List Char) :=
  match s with
  | c :: rest =>
    if isIdentStart c then some (c :: rest.takeWhile isIdentChar, rest.dropWhile isIdentChar)
    else none
  | [] => none

/-- Anchored match of a single-character pattern given by a character test. -/
def matchSingle (p : Char → Bool) (s : List Char) : Option (List Char × List Char) :=
  match s with
  | c :: rest => if p c then some ([c], rest) else none
  | [] => none

/-- One step of `Lexer.tokenize`: try the patterns in the fixed dictionary
order, first match wins.  Returns `some (some token, rest)` for an emitting
match, `some (none, rest)` for a SKIP match, `none` when nothing matches. -/
def scanOne (s : List Char) : Option (Option Token × List Char) :=
  match matchNumber s with
  | some (v, r) => some (some ⟨.NUMBER, v⟩, r)
  | none =>
  match matchString s with
  | some (v, r) => some (some ⟨.STRING, v⟩, r)
  | none =>
  match matchIdent s with
  | some (v, r) => some (some ⟨.IDENTIFIER, v⟩, r)
  | none =>
  match matchSingle (fun c => c = '=') s with
  | some (v, r) => some (some ⟨.ASSIGN, v⟩, r)
  | none =>
  match matchSingle isOpChar s with
  | some (v, r) => some (some ⟨.OPERATOR, v⟩, r)
  | none =>
  match matchSingle (fun c => c = '(') s with
  | some (v, r) => some (some ⟨.LPAREN, v⟩, r)
  | none =>
  match matchSingle (fun c => c = ')') s with
  | some (v, r) => some (some ⟨.RPAREN, v⟩, r)
  | none =>
  match matchSingle (fun c => c = lbraceChar) s with
  | some (v, r) => some (some ⟨.LBRACE, v⟩, r)
  | none =>
  match matchSingle (fun c => c = rbraceChar) s with
  | some (v, r) => some (some ⟨.RBRACE, v⟩, r)
  | none =>
  match matchSingle (fun c => c = nlChar) s with
  | some (v, r) => some (some ⟨.NEWLINE, v⟩, r)
  | none =>
  match matchSingle isSkipChar s with
  | some (_, r) => some (none, r)
  | none => none

/-- The `while self.current_pos < len(self.code)` loop of `Lexer.tokenize`,
recursing on a fuel that is adequate whenever it is at least the number of
remaining characters (every successful match consumes at least one).  The
error message is the Python exception text
`Unexpected character: <char>`. -/
def tokenizeFuel : Nat → List Char → Except String (List Token)
  | _, [] => .ok []
  | 0, _ :: _ => .error "lexer fuel exhausted"
  | fuel + 1, c :: rest =>
    match scanOne (c :: rest) with
    | none => .error ("Unexpected character: " ++ String.singleton c)
    | some (none, r) => tokenizeFuel fuel r
    | some (some t, r) =>
      match tokenizeFuel fuel r with
      | .ok ts => .ok (t :: ts)
      | .error e => .error e

/-- `Lexer.tokenize` on a whole input. -/
def tokenize (s : List Char) : Except String (List Token) :=
  tokenizeFuel s.length s

/-- The value of `self.current_pos` at the moment `Lexer.tokenize` raises
`Unexpected character`, and `none` when tokenization succeeds: an
observation of the same scan used to talk about the failure offset. -/
def lexFailPosFuel : Nat → Nat → List Char → Option Nat
  | _, _, [] => none
  | 0, _, _ :: _ => none
  | fuel + 1, pos, c :: rest =>
    match scanOne (c :: rest) with
    | none => some pos
    | some (_, r) => lexFailPosFuel fuel (pos + ((c :: rest).length - r.length)) r

/-- Failure offset of `tokenize` on a whole input. -/
def lexFailPos (s : List Char) : Option Nat :=
  lexFailPosFuel s.length 0 s

/-- The Python name of a token kind, as interpolated into the `eat`
error message. -/
def tokenTypeName : TType → String
  | .NUMBER => "NUMBER"
  | .STRING => "STRING"
  | .IDENTIFIER => "IDENTIFIER"
  | .ASSIGN => "ASSIGN"
  | .OPERATOR => "OPERATOR"
  | .LPAREN => "LPAREN"
  | .RPAREN => "RPAREN"
  | .LBRACE => "LBRACE"
  | .RBRACE => "RBRACE"
  | .NEWLINE => "NEWLINE"

/-- Parser state: the token list plus the two fields
`current_token_index` and `current_token` of the Python `Parser`. -/
structure PState where
  tokens : List Token
  index : Nat
  current : Token
  deriving DecidableEq

/-- `Parser.__init__`: reads `tokens[0]`, which on an empty token list
raises Python's `IndexError` with message `list index out of range`. -/
def parserInit : List Token → Except String PState
  | [] => .error "list index out of range"
  | t :: ts => .ok ⟨t :: ts, 0, t⟩

/-- `Parser.eat`: on a kind match, increment the index but update
`current_token` only while the new index is in range (the clamp); on a
mismatch raise with the Python message. -/
def eat (t : TType) (st : PState) : Except String PState :=
  if st.current.type = t then
    if h : st.index + 1 < st.tokens.length then
      .ok ⟨st.tokens, st.index + 1, st.tokens.get ⟨st.index + 1, h⟩⟩
    else
      .ok ⟨st.tokens, st.index + 1, st.current⟩
  else
    .error ("Expected token type " ++ tokenTypeName t ++ ", but got "
      ++ tokenTypeName st.current.type)

/-- Python `int` on the (digit-only) literal of a NUMBER token. -/
def strToNat (s : List Char) : Nat :=
  s.foldl (fun a c => a * 10 + (c.toNat - Char.toNat '0')) 0

/-- Syntax tree values as they flow through the Python parser: beside
`NumberNode` and `BinaryOperationNode` there is `pyNone`, the Python
`None` that `factor` implicitly returns when the current token is not a
NUMBER (and that may then appear as a child of a `BinaryOperationNode`). -/
inductive ASTNode
  | pyNone
  | number (value : Int)
  | binaryOperation (left : ASTNode) (operator : List Char) (right : ASTNode)
  deriving DecidableEq

/-- `Parser.factor`: consume one NUMBER token into a `NumberNode`;
on any other token fall through, returning Python `None`. -/
def factor (st : PState) : Except String (ASTNode × PState) :=
  if st.current.type = .NUMBER then
    match eat .NUMBER st with
    | .error e => .error e
    | .ok st1 => .ok (.number (strToNat st.current.value), st1)
  else .ok (.pyNone, st)

/-- Result of a fueled computation: `div` marks fuel exhaustion (the
computation did not finish within the given fuel), `err` a raised
Python exception, `ok` a normal return. -/
inductive Res (α : Type)
  | div
  | err (msg : String)
  | ok (a : α)
  deriving DecidableEq

/-- The `while`-loop of `Parser.term`: while the current token is an
OPERATOR whose literal is `*` or `/`, eat it and fold a new
`BinaryOperationNode` with the next `factor` result on the right. -/
def termLoop : Nat → ASTNode → PState → Res (ASTNode × PState)
  | 0, _, _ => .div
  | fuel + 1, node, st =>
    if st.current.type = .OPERATOR
        && (st.current.value = ['*'] || st.current.value = ['/']) then
      match eat .OPERATOR st with
      | .error e => .err e
      | .ok st1 =>
        match factor st1 with
        | .error e => .err e
        | .ok (right, st2) =>
          termLoop fuel (.binaryOperation node st.current.value right) st2
    else .ok (node, st)

/-- `Parser.term`: a `factor`, then the `*`-`/` fold. -/
def term (fuel : Nat) (st : PState) : Res (ASTNode × PState) :=
  match factor st with
  | .error e => .err e
  | .ok (node, st1) => termLoop fuel node st1

/-- The `while`-loop of `Parser.expr`: while the current token is an
OPERATOR whose literal is `+` or `-`, eat it and fold a new
`BinaryOperationNode` with the next `term` result on the right. -/
def exprLoop : Nat → ASTNode → PState → Res (ASTNode × PState)
  | 0, _, _ => .div
  | fuel + 1, node, st =>
    if st.current.type = .OPERATOR
        && (st.current.value = ['+'] || st.current.value = ['-']) then
      match eat .OPERATOR st with
      | .error e => .err e
      | .ok st1 =>
        match term fuel st1 with
        | .div => .div
        | .err e => .err e
        | .ok (right, st2) =>
          exprLoop fuel (.binaryOperation node st.current.value right) st2
    else .ok (node, st)

/-- `Parser.expr`: a `term`, then the `+`-`-` fold. -/
def expr (fuel : Nat) (st : PState) : Res (ASTNode × PState) :=
  match term fuel st with
  | .div => .div
  | .err e => .err e
  | .ok (node, st1) => exprLoop fuel node st1

/-- `Parser.parse` on a token list: construct the parser, run `expr`,
return the resulting node (Python `None` included). -/
def parse (fuel : Nat) (tokens : List Token) : Res ASTNode :=
  match parserInit tokens with
  | .error e => .err e
  | .ok st =>
    match expr fuel st with
    | .div => .div
    | .err e => .err e
    | .ok (node, _) => .ok node

/-- One arithmetic branch of `visit_binary_operation`: Python raises a
`TypeError` when an operand is `None` (the exact Python message also
names the operand types; no claim depends on its text). -/
def pyArith (f : Rat → Rat → Rat) : Option Rat → Option Rat → Except String (Option Rat)
  | some a, some b => .ok (some (f a b))
  | _, _ => .error "unsupported operand type(s)"

/-- The `/` branch of `visit_binary_operation`: Python true division,
raising `ZeroDivisionError` (message `division by zero`) on a zero right
operand.  Numbers are modelled as exact rationals. -/
def pyDiv : Option Rat → Option Rat → Except String (Option Rat)
  | some a, some b =>
    if b = 0 then .error "division by zero" else .ok (some (a / b))
  | _, _ => .error "unsupported operand type(s)"

/-- `Interpreter.visit`: `None` evaluates to `None` (no `isinstance`
branch matches), a `NumberNode` to its value, a `BinaryOperationNode`
evaluates `left` then `right` and dispatches on the operator literal;
an operator outside `+ - * /` falls through to `None`. -/
def visit : ASTNode → Except String (Option Rat)
  | .pyNone => .ok none
  | .number n => .ok (some (n : Rat))
  | .binaryOperation l op r =>
    match visit l with
    | .error e => .error e
    | .ok lv =>
      match visit r with
      | .error e => .error e
      | .ok rv =>
        if op = ['+'] then pyArith (fun a b => a + b) lv rv
        else if op = ['-'] then pyArith (fun a b => a - b) lv rv
        else if op = ['*'] then pyArith (fun a b => a * b) lv rv
        else if op = ['/'] then pyDiv lv rv
        else .ok none

/-- One REPL body iteration on a non-`exit` line:
`tokenize`, then `parse`, then `interpret`. -/
def pipeline (fuel : Nat) (code : List Char) : Res (Option Rat) :=
  match tokenize code with
  | .error e => .err e
  | .ok ts =>
    match parse fuel ts with
    | .div => .div
    | .err e => .err e
    | .ok node =>
      match visit node with
      | .error e => .err e
      | .ok v => .ok v

/-- Python whitespace for `str.strip`. -/
def isPyWS (c : Char) : Bool :=
  decide (c = ' ') || decide (c = tabChar) || decide (c = nlChar)
    || decide (c = Char.ofNat 13) || decide (c = Char.ofNat 11) || decide (c = Char.ofNat 12)

/-- `str.strip()`: drop leading and trailing whitespace. -/
def pyStrip (s : List Char) : List Char :=
  ((s.dropWhile isPyWS).reverse.dropWhile isPyWS).reverse

/-- `print(result)`: Python renders `None` as `None` and numbers with
`str` (the numeric text itself is not inspected by any claim). -/
def pyShow : Option Rat → String
  | none => "None"
  | some q => toString q

/-- Outcome of running the REPL on a finite list of input lines. -/
inductive ReplResult
  | exited (outputs : List String)
  | pending (outputs : List String)
  | hung (outputs : List String)
  deriving DecidableEq

/-- Prepend a printed line to a REPL outcome. -/
def consOut (s : String) : ReplResult → ReplResult
  | .exited o => .exited (s :: o)
  | .pending o => .pending (s :: o)
  | .hung o => .hung (s :: o)

/-- The `repl` loop over a list of input lines: stop (`exited`) on a
line stripping to `exit`; otherwise run the pipeline, printing either
the result or `Error: <message>` (the `except` handler) and continue;
`pending` when the lines ran out with the loop still live, `hung` when
a line's pipeline ran out of fuel. -/
def repl (fuel : Nat) : List (List Char) → ReplResult
  | [] => .pending []
  | line :: rest =>
    if pyStrip line = "exit".data then .exited []
    else
      match pipeline fuel line with
      | .div => .hung []
      | .err e => consOut ("Error: " ++ e) (repl fuel rest)
      | .ok v => consOut (pyShow v) (repl fuel rest)

/-- Concatenation of the literal texts of a token sequence. -/
def concatValues : List Token → List Char
  | [] => []
  | t :: ts => t.value ++ concatValues ts

/-! ### List helpers -/

theorem takeWhile_middle (P : α → Bool) (c : α) (hc : P c = false) :
    ∀ (xs zs : List α), (xs ++ c :: zs).takeWhile P = xs.takeWhile P := by
  intro xs zs
  induction xs with
  | nil => simp [List.takeWhile_cons, hc]
  | cons x xs ih => by_cases hx : P x <;> simp [List.takeWhile_cons, hx, ih]

theorem dropWhile_middle (P : α → Bool) (c : α) (hc : P c = false) :
    ∀ (xs zs : List α), (xs ++ c :: zs).dropWhile P = xs.dropWhile P ++ c :: zs := by
  intro xs zs
  induction xs with
  | nil => simp [List.dropWhile_cons, hc]
  | cons x xs ih => by_cases hx : P x <;> simp [List.dropWhile_cons, hx, ih]

theorem dropWhile_append_of_cons (P : α → Bool) :
    ∀ (xs zs : List α) (y : α) (ys : List α), xs.dropWhile P = y :: ys →
      (xs ++ zs).dropWhile P = y :: (ys ++ zs) ∧ (xs ++ zs).takeWhile P = xs.takeWhile P := by
  intro xs
  induction xs with
  | nil => intro zs y ys h; simp at h
  | cons x xs ih =>
    intro zs y ys h
    by_cases hx : P x
    · rw [List.dropWhile_cons_of_pos hx] at h
      have := ih zs y ys h
      simp [List.dropWhile_cons_of_pos hx, List.takeWhile_cons_of_pos hx, this.1, this.2]
    · rw [List.dropWhile_cons_of_neg hx] at h
      cases h
      simp [List.dropWhile_cons_of_neg hx, List.takeWhile_cons_of_neg hx]

theorem getLastD_eq_getD (l : List α) (d : α) : l.getLastD d = l.getD (l.length - 1) d := by
  induction l with
  | nil => rfl
  | cons a l ih =>
    cases l with
    | nil => rfl
    | cons b t =>
      show (b :: t).getLastD d = (a :: b :: t).getD (t.length + 1) d
      rw [ih]
      rfl

/-! ### Matcher specifications: a successful anchored match returns a
nonempty matched text which, followed by the rest, is the input. -/

theorem matchNumber_spec {s v r} (h : matchNumber s = some (v, r)) :
    v ≠ [] ∧ v ++ r = s := by
  unfold matchNumber at h
  cases htw : s.takeWhile isDigitChar with
  | nil => rw [htw] at h; exact absurd h (by simp)
  | cons a m =>
    rw [htw] at h
    simp only [Option.some.injEq, Prod.mk.injEq] at h
    obtain ⟨h1, h2⟩ := h
    constructor
    · rw [← h1]; simp
    · rw [← h1, ← h2, ← htw]; simp [List.takeWhile_append_dropWhile]

theorem matchString_spec {s v r} (h : matchString s = some (v, r)) :
    v ≠ [] ∧ v ++ r = s := by
  unfold matchString at h
  match s with
  | [] => exact absurd h (by simp)
  | c :: rest =>
    simp only at h
    by_cases hc : c = quoteChar
    · rw [if_pos hc] at h
      split at h
      · rename_i c2 rest2 hdrop
        by_cases hc2 : c2 = quoteChar
        · rw [if_pos hc2] at h
          simp only [Option.some.injEq, Prod.mk.injEq] at h
          obtain ⟨h1, h2⟩ := h
          subst hc
          subst hc2
          constructor
          · rw [← h1]; simp
          · rw [← h1, ← h2, List.cons_append, List.append_assoc, List.singleton_append,
              ← hdrop, List.takeWhile_append_dropWhile]
        · rw [if_neg hc2] at h; exact absurd h (by simp)
      · exact absurd h (by simp)
    · rw [if_neg hc] at h; exact absurd h (by simp)

theorem matchIdent_spec {s v r} (h : matchIdent s = some (v, r)) :
    v ≠ [] ∧ v ++ r = s := by
  unfold matchIdent at h
  match s with
  | [] => exact absurd h (by simp)
  | c :: rest =>
    simp only at h
    by_cases hc : isIdentStart c
    · rw [if_pos hc] at h
      obtain ⟨rfl, rfl⟩ : c :: rest.takeWhile isIdentChar = v ∧ rest.dropWhile isIdentChar = r := by
        simpa using h
      exact ⟨by simp, by simp [List.takeWhile_append_dropWhile]⟩
    · rw [if_neg hc] at h; exact absurd h (by simp)

theorem matchSingle_spec {p s v r} (h : matchSingle p s = some (v, r)) :
    ∃ c, v = [c] ∧ s = c :: r ∧ p c = true := by
  unfold matchSingle at h
  match s with
  | [] => exact absurd h (by simp)
  | c :: rest =>
    simp only at h
    by_cases hc : p c
    · rw [if_pos hc] at h
      obtain ⟨rfl, rfl⟩ : [c] = v ∧ rest = r := by simpa using h
      exact ⟨c, rfl, rfl, hc⟩
    · rw [if_neg hc] at h; exact absurd h (by simp)

/-- Specification of one scanner step: the consumed text is nonempty,
the rest is the remainder of the input, an emitted token carries the
consumed text as its literal, and a silent step consumed one SKIP
character. -/
theorem scanOne_spec {s t? r} (h : scanOne s = some (t?, r)) :
    ∃ v, v ≠ [] ∧ v ++ r = s ∧
      ((∃ t, t? = some t ∧ t.value = v) ∨
        (t? = none ∧ ∃ c, v = [c] ∧ isSkipChar c = true)) := by
  unfold scanOne at h
  split at h
  · next v' r' hm =>
    obtain ⟨h1, h2⟩ := matchNumber_spec hm
    obtain ⟨rfl, rfl⟩ : some (⟨.NUMBER, v'⟩ : Token) = t? ∧ r' = r := by simpa using h
    exact ⟨v', h1, h2, .inl ⟨_, rfl, rfl⟩⟩
  split at h
  · next v' r' hm =>
    obtain ⟨h1, h2⟩ := matchString_spec hm
    obtain ⟨rfl, rfl⟩ : some (⟨.STRING, v'⟩ : Token) = t? ∧ r' = r := by simpa using h
    exact ⟨v', h1, h2, .inl ⟨_, rfl, rfl⟩⟩
  split at h
  · next v' r' hm =>
    obtain ⟨h1, h2⟩ := matchIdent_spec hm
    obtain ⟨rfl, rfl⟩ : some (⟨.IDENTIFIER, v'⟩ : Token) = t? ∧ r' = r := by simpa using h
    exact ⟨v', h1, h2, .inl ⟨_, rfl, rfl⟩⟩
  split at h
  · next v' r' hm =>
    obtain ⟨c, rfl, h2, _⟩ := matchSingle_spec hm
    obtain ⟨rfl, rfl⟩ : some (⟨.ASSIGN, [c]⟩ : Token) = t? ∧ r' = r := by simpa using h
    exact ⟨[c], by simp, by simp [h2], .inl ⟨_, rfl, rfl⟩⟩
  split at h
  · next v' r' hm =>
    obtain ⟨c, rfl, h2, _⟩ := matchSingle_spec hm
    obtain ⟨rfl, rfl⟩ : some (⟨.OPERATOR, [c]⟩ : Token) = t? ∧ r' = r := by simpa using h
    exact ⟨[c], by simp, by simp [h2], .inl ⟨_, rfl, rfl⟩⟩
  split at h
  · next v' r' hm =>
    obtain ⟨c, rfl, h2, _⟩ := matchSingle_spec hm
    obtain ⟨rfl, rfl⟩ : some (⟨.LPAREN, [c]⟩ : Token) = t? ∧ r' = r := by simpa using h
    exact ⟨[c], by simp, by simp [h2], .inl ⟨_, rfl, rfl⟩⟩
  split at h
  · next v' r' hm =>
    obtain ⟨c, rfl, h2, _⟩ := matchSingle_spec hm
    obtain ⟨rfl, rfl⟩ : some (⟨.RPAREN, [c]⟩ : Token) = t? ∧ r' = r := by simpa using h
    exact ⟨[c], by simp, by simp [h2], .inl ⟨_, rfl, rfl⟩⟩
  split at h
  · next v' r' hm =>
    obtain ⟨c, rfl, h2, _⟩ := matchSingle_spec hm
    obtain ⟨rfl, rfl⟩ : some (⟨.LBRACE, [c]⟩ : Token) = t? ∧ r' = r := by simpa using h
    exact ⟨[c], by simp, by simp [h2], .inl ⟨_, rfl, rfl⟩⟩
  split at h
  · next v' r' hm =>
    obtain ⟨c, rfl, h2, _⟩ := matchSingle_spec hm
    obtain ⟨rfl, rfl⟩ : some (⟨.RBRACE, [c]⟩ : Token) = t? ∧ r' = r := by simpa using h
    exact ⟨[c], by simp, by simp [h2], .inl ⟨_, rfl, rfl⟩⟩
  split at h
  · next v' r' hm =>
    obtain ⟨c, rfl, h2, _⟩ := matchSingle_spec hm
    obtain ⟨rfl, rfl⟩ : some (⟨.NEWLINE, [c]⟩ : Token) = t? ∧ r' = r := by simpa using h
    exact ⟨[c], by simp, by simp [h2], .inl ⟨_, rfl, rfl⟩⟩
  split at h
  · next v' r' hm =>
    obtain ⟨c, rfl, h2, hsk⟩ := matchSingle_spec hm
    obtain ⟨rfl, rfl⟩ : (none : Option Token) = t? ∧ r' = r := by simpa using h
    exact ⟨[c], by simp, by simp [h2], .inr ⟨rfl, c, rfl, hsk⟩⟩
  · exact absurd h (by simp)

/-- A scanner step strictly shrinks the remaining input. -/
theorem scanOne_shrink {s t? r} (h : scanOne s = some (t?, r)) : r.length < s.length := by
  obtain ⟨v, hv, hvr, _⟩ := scanOne_spec h
  have : v.length + r.length = s.length := by rw [← hvr]; simp
  have : 0 < v.length := List.length_pos.mpr hv
  omega

/-! ### Fuel adequacy: any fuel at least the remaining length gives the
same result, so the choice `fuel = s.length` in `tokenize` is canonical. -/

theorem tokenizeFuel_adequate :
    ∀ f₁ f₂ s, s.length ≤ f₁ → s.length ≤ f₂ → tokenizeFuel f₁ s = tokenizeFuel f₂ s := by
  intro f₁
  induction f₁ with
  | zero =>
    intro f₂ s h1 _
    have : s = [] := List.length_eq_zero.mp (Nat.le_zero.mp h1)
    subst this
    cases f₂ <;> rfl
  | succ g ih =>
    intro f₂ s h1 h2
    cases s with
    | nil => cases f₂ <;> rfl
    | cons c rest =>
      cases f₂ with
      | zero => exact absurd h2 (by simp)
      | succ g₂ =>
        unfold tokenizeFuel
        cases hsc : scanOne (c :: rest) with
        | none => rfl
        | some p =>
          obtain ⟨t?, r⟩ := p
          have hlt : r.length < rest.length + 1 := by
            have := scanOne_shrink hsc
            simpa using this
          have hr : tokenizeFuel g r = tokenizeFuel g₂ r := by
            apply ih <;> simp only [List.length_cons] at h1 h2 <;> omega
          cases t? with
          | none => exact hr
          | some t =>
            exact congrArg
              (fun x => match x with
                | Except.ok ts => Except.ok (t :: ts)
                | Except.error e => Except.error e) hr

theorem lexFailPosFuel_adequate :
    ∀ f₁ f₂ pos s, s.length ≤ f₁ → s.length ≤ f₂ →
      lexFailPosFuel f₁ pos s = lexFailPosFuel f₂ pos s := by
  intro f₁
  induction f₁ with
  | zero =>
    intro f₂ pos s h1 _
    have : s = [] := List.length_eq_zero.mp (Nat.le_zero.mp h1)
    subst this
    cases f₂ <;> rfl
  | succ g ih =>
    intro f₂ pos s h1 h2
    cases s with
    | nil => cases f₂ <;> rfl
    | cons c rest =>
      cases f₂ with
      | zero => exact absurd h2 (by simp)
      | succ g₂ =>
        unfold lexFailPosFuel
        cases hsc : scanOne (c :: rest) with
        | none => rfl
        | some p =>
          obtain ⟨t?, r⟩ := p
          have hlt : r.length < rest.length + 1 := by
            have := scanOne_shrink hsc
            simpa using this
          apply ih <;> simp only [List.length_cons] at h1 h2 <;> omega

theorem tokenizeFuel_concat :
    ∀ fuel s ts, s.length ≤ fuel → (∀ c ∈ s, isSkipChar c = false) →
      tokenizeFuel fuel s = .ok ts → concatValues ts = s := by
  intro fuel
  induction fuel with
  | zero =>
    intro s ts h1 _ h3
    have : s = [] := List.length_eq_zero.mp (Nat.le_zero.mp h1)
    subst this
    cases h3
    rfl
  | succ g ih =>
    intro s ts h1 hws h3
    cases s with
    | nil => cases h3; rfl
    | cons c rest =>
      unfold tokenizeFuel at h3
      cases hsc : scanOne (c :: rest) with
      | none => rw [hsc] at h3; simp at h3
      | some p =>
        obtain ⟨t?, r⟩ := p
        rw [hsc] at h3
        obtain ⟨v, hv, hvr, hcase⟩ := scanOne_spec hsc
        have hrsub : ∀ d ∈ r, isSkipChar d = false := by
          intro d hd
          exact hws d (by rw [← hvr]; exact List.mem_append_right v hd)
        have hrlen : r.length ≤ g := by
          have := scanOne_shrink hsc
          simp only [List.length_cons] at this h1
          omega
        cases t? with
        | none =>
          exfalso
          rcases hcase with ⟨t, ht, _⟩ | ⟨_, d, hd, hsk⟩
          · cases ht
          · have hdmem : d ∈ (c :: rest) := by
              rw [← hvr, hd]
              exact List.mem_append_left _ (by simp)
            rw [hws d hdmem] at hsk
            cases hsk
        | some t =>
          rcases hcase with ⟨t', ht', htv⟩ | ⟨hn, _⟩
          · obtain rfl : t = t' := by injection ht'
            replace h3 : (match tokenizeFuel g r with
                | Except.ok ts => Except.ok (t :: ts)
                | Except.error e => Except.error e) = Except.ok ts := h3
            cases hrec : tokenizeFuel g r with
            | error e => rw [hrec] at h3; simp at h3
            | ok ts' =>
              rw [hrec] at h3
              simp only [Except.ok.injEq] at h3
              subst h3
              show t.value ++ concatValues ts' = c :: rest
              rw [ih r ts' hrlen hrsub hrec, htv, hvr]
          · cases hn

theorem tokenizeFuel_ok_nil_all_skip :
    ∀ fuel s, tokenizeFuel fuel s = .ok [] → ∀ c ∈ s, isSkipChar c = true := by
  intro fuel
  induction fuel with
  | zero =>
    intro s h c hc
    cases s with
    | nil => cases hc
    | cons a rest => cases h
  | succ g ih =>
    intro s h c hc
    cases s with
    | nil => cases hc
    | cons a rest =>
      unfold tokenizeFuel at h
      cases hsc : scanOne (a :: rest) with
      | none => rw [hsc] at h; simp at h
      | some p =>
        obtain ⟨t?, r⟩ := p
        rw [hsc] at h
        obtain ⟨v, hv, hvr, hcase⟩ := scanOne_spec hsc
        cases t? with
        | some t =>
          exfalso
          replace h : (match tokenizeFuel g r with
              | Except.ok ts => Except.ok (t :: ts)
              | Except.error e => Except.error e) = Except.ok [] := h
          cases hrec : tokenizeFuel g r with
          | error e => rw [hrec] at h; simp at h
          | ok ts' => rw [hrec] at h; simp at h
        | none =>
          replace h : tokenizeFuel g r = Except.ok [] := h
          rcases hcase with ⟨t, ht, _⟩ | ⟨_, d, hd, hsk⟩
          · cases ht
          · subst hd
            have hda : d = a ∧ r = rest := by
              have h' := hvr
              simp only [List.singleton_append, List.cons.injEq] at h'
              exact ⟨h'.1, h'.2⟩
            rcases List.mem_cons.mp hc with rfl | hcr
            · rw [← hda.1]; exact hsk
            · exact ih r h c (by rw [hda.2]; exact hcr)

/-! ### Locality of scanning around a character that no category matches -/

/-- A character that can begin no match of any lexical category (and can
extend no NUMBER or IDENTIFIER match): e.g. `@` or `#`. -/
def noCategoryChar (c : Char) : Bool :=
  !(isDigitChar c) && !(c = quoteChar) && !(isIdentStart c) && !(c = '=') && !(isOpChar c)
    && !(c = '(') && !(c = ')') && !(c = lbraceChar) && !(c = rbraceChar)
    && !(c = nlChar) && !(isSkipChar c)

theorem noCategoryChar_elim {c : Char} (h : noCategoryChar c = true) :
    isDigitChar c = false ∧ ¬(c = quoteChar) ∧ isIdentStart c = false ∧ ¬(c = '=')
      ∧ isOpChar c = false ∧ ¬(c = '(') ∧ ¬(c = ')') ∧ ¬(c = lbraceChar) ∧ ¬(c = rbraceChar)
      ∧ ¬(c = nlChar) ∧ isSkipChar c = false := by
  simp only [noCategoryChar, Bool.and_eq_true, Bool.not_eq_true', decide_eq_false_iff_not] at h
  obtain ⟨⟨⟨⟨⟨⟨⟨⟨⟨⟨hd, hq⟩, hi⟩, he⟩, ho⟩, hlp⟩, hrp⟩, hlb⟩, hrb⟩, hn⟩, hs⟩ := h
  exact ⟨hd, hq, hi, he, ho, hlp, hrp, hlb, hrb, hn, hs⟩

/-- At a `noCategoryChar`, the scanner matches nothing. -/
theorem scanOne_noCat {c : Char} (h : noCategoryChar c = true) (post : List Char) :
    scanOne (c :: post) = none := by
  obtain ⟨hd, hq, hi, he, ho, hlp, hrp, hlb, hrb, hn, hs⟩ := noCategoryChar_elim h
  simp [scanOne, matchNumber, matchString, matchIdent, matchSingle, List.takeWhile_cons,
    hd, hq, hi, he, ho, hlp, hrp, hlb, hrb, hn, hs]

/-- `isIdentChar` fails on a `noCategoryChar`. -/
theorem noCategoryChar_not_ident {c : Char} (h : noCategoryChar c = true) :
    isIdentChar c = false := by
  obtain ⟨hd, _, hi, _⟩ := noCategoryChar_elim h
  simp [isIdentChar, hd, hi]

theorem matchNumber_extend {s v r : List Char} {c : Char} (hc : isDigitChar c = false)
    (post : List Char) (h : matchNumber s = some (v, r)) :
    matchNumber (s ++ c :: post) = some (v, r ++ c :: post) := by
  unfold matchNumber at h ⊢
  rw [takeWhile_middle _ _ hc, dropWhile_middle _ _ hc]
  cases htw : s.takeWhile isDigitChar with
  | nil => rw [htw] at h; exact absurd h (by simp)
  | cons a m =>
    rw [htw] at h
    simp only [Option.some.injEq, Prod.mk.injEq] at h ⊢
    exact ⟨h.1, by rw [← h.2]⟩

theorem matchNumber_none_cons {a : Char} {xs : List Char} (h : matchNumber (a :: xs) = none)
    (ys : List Char) : matchNumber (a :: ys) = none := by
  unfold matchNumber at h ⊢
  by_cases hd : isDigitChar a
  · rw [List.takeWhile_cons_of_pos hd] at h
    exact absurd h (by simp)
  · rw [List.takeWhile_cons_of_neg hd]

theorem matchString_extend {s v r : List Char} {c : Char} (_hc : ¬(c = quoteChar))
    (post : List Char) (h : matchString s = some (v, r)) :
    matchString (s ++ c :: post) = some (v, r ++ c :: post) := by
  unfold matchString at h ⊢
  match s with
  | [] => exact absurd h (by simp)
  | a :: rest =>
    simp only [List.cons_append] at h ⊢
    by_cases ha : a = quoteChar
    · rw [if_pos ha] at h ⊢
      split at h
      · rename_i c2 rest2 hdrop
        by_cases hc2 : c2 = quoteChar
        · rw [if_pos hc2] at h
          simp only [Option.some.injEq, Prod.mk.injEq] at h
          obtain ⟨hdrop2, htake2⟩ := dropWhile_append_of_cons
            (fun d => !(d = quoteChar)) rest (c :: post) c2 rest2 hdrop
          rw [hdrop2]
          show (if c2 = quoteChar then
              some (quoteChar ::
                (List.takeWhile (fun d => !(d = quoteChar)) (rest ++ c :: post) ++ [quoteChar]),
                rest2 ++ c :: post)
            else none) = some (v, r ++ c :: post)
          rw [if_pos hc2, htake2]
          simp only [Option.some.injEq, Prod.mk.injEq]
          exact ⟨h.1, by rw [← h.2]⟩
        · rw [if_neg hc2] at h; exact absurd h (by simp)
      · exact absurd h (by simp)
    · rw [if_neg ha] at h; exact absurd h (by simp)

theorem matchIdent_extend {s v r : List Char} {c : Char} (hc : isIdentChar c = false)
    (post : List Char) (h : matchIdent s = some (v, r)) :
    matchIdent (s ++ c :: post) = some (v, r ++ c :: post) := by
  unfold matchIdent at h ⊢
  match s with
  | [] => exact absurd h (by simp)
  | a :: rest =>
    simp only [List.cons_append] at h ⊢
    by_cases ha : isIdentStart a
    · rw [if_pos ha] at h ⊢
      rw [takeWhile_middle _ _ hc, dropWhile_middle _ _ hc]
      simp only [Option.some.injEq, Prod.mk.injEq] at h ⊢
      exact ⟨h.1, by rw [← h.2]⟩
    · rw [if_neg ha] at h; exact absurd h (by simp)

theorem matchIdent_none_cons {a : Char} {xs : List Char} (h : matchIdent (a :: xs) = none)
    (ys : List Char) : matchIdent (a :: ys) = none := by
  replace h : (if isIdentStart a then
      some (a :: xs.takeWhile isIdentChar, xs.dropWhile isIdentChar) else none) = none := h
  show (if isIdentStart a then
      some (a :: ys.takeWhile isIdentChar, ys.dropWhile isIdentChar) else none) = none
  by_cases hi : isIdentStart a
  · rw [if_pos hi] at h; exact absurd h (by simp)
  · rw [if_neg hi]

theorem matchSingle_extend {p : Char → Bool} {s v r : List Char}
    (zs : List Char) (h : matchSingle p s = some (v, r)) :
    matchSingle p (s ++ zs) = some (v, r ++ zs) := by
  obtain ⟨a, rfl, rfl, ha⟩ := matchSingle_spec h
  simp [matchSingle, ha]

theorem matchSingle_none_cons {p : Char → Bool} {a : Char} {xs : List Char}
    (h : matchSingle p (a :: xs) = none) (ys : List Char) : matchSingle p (a :: ys) = none := by
  replace h : (if p a then some ([a], xs) else none) = none := h
  show (if p a then some ([a], ys) else none) = none
  by_cases hp : p a
  · rw [if_pos hp] at h; exact absurd h (by simp)
  · rw [if_neg hp]

theorem matchString_none_of_head {a : Char} (ha : ¬(a = quoteChar)) (xs : List Char) :
    matchString (a :: xs) = none := by
  simp [matchString, ha]

theorem matchIdent_quote (xs : List Char) : matchIdent (quoteChar :: xs) = none := by
  have : isIdentStart quoteChar = false := by decide
  simp [matchIdent, this]

theorem matchSingle_quote {p : Char → Bool} (hp : p quoteChar = false) (xs : List Char) :
    matchSingle p (quoteChar :: xs) = none := by
  simp [matchSingle, hp]

/-- Locality of one scanner step: appending input that begins with a
`noCategoryChar` changes neither the success of a step nor its token. -/
theorem scanOne_extend {s : List Char} {t? : Option Token} {r : List Char} {c : Char}
    (hc : noCategoryChar c = true) (post : List Char)
    (h : scanOne s = some (t?, r)) :
    scanOne (s ++ c :: post) = some (t?, r ++ c :: post) := by
  obtain ⟨hd, hq, hi, he, ho, hlp, hrp, hlb, hrb, hn, hs⟩ := noCategoryChar_elim hc
  have hic : isIdentChar c = false := noCategoryChar_not_ident hc
  match s with
  | [] =>
    rw [show scanOne [] = none from rfl] at h
    cases h
  | a :: s' =>
    unfold scanOne at h ⊢
    simp only [List.cons_append]
    cases h1 : matchNumber (a :: s') with
    | some vr =>
      obtain ⟨v, r'⟩ := vr
      rw [h1] at h
      replace h : some (some (⟨.NUMBER, v⟩ : Token), r') = some (t?, r) := h
      simp only [Option.some.injEq, Prod.mk.injEq] at h
      have hx1 : matchNumber (a :: (s' ++ c :: post)) = some (v, r' ++ c :: post) :=
        matchNumber_extend hd post h1
      rw [hx1, ← h.1, ← h.2]
    | none =>
    rw [h1] at h
    have hx2 : matchNumber (a :: (s' ++ c :: post)) = none :=
      matchNumber_none_cons h1 (s' ++ c :: post)
    rw [hx2]
    cases h2 : matchString (a :: s') with
    | some vr =>
      obtain ⟨v, r'⟩ := vr
      rw [h2] at h
      replace h : some (some (⟨.STRING, v⟩ : Token), r') = some (t?, r) := h
      simp only [Option.some.injEq, Prod.mk.injEq] at h
      have hx3 : matchString (a :: (s' ++ c :: post)) = some (v, r' ++ c :: post) :=
        matchString_extend hq post h2
      rw [hx3, ← h.1, ← h.2]
    | none =>
    rw [h2] at h
    by_cases ha : a = quoteChar
    · exfalso
      subst ha
      rw [matchIdent_quote s', matchSingle_quote (by decide) s',
        matchSingle_quote (by decide) s', matchSingle_quote (by decide) s',
        matchSingle_quote (by decide) s', matchSingle_quote (by decide) s',
        matchSingle_quote (by decide) s', matchSingle_quote (by decide) s',
        matchSingle_quote (by decide) s'] at h
      replace h : (none : Option (Option Token × List Char)) = some (t?, r) := h
      cases h
    have hx4 : matchString (a :: (s' ++ c :: post)) = none :=
      matchString_none_of_head ha (s' ++ c :: post)
    rw [hx4]
    cases h3 : matchIdent (a :: s') with
    | some vr =>
      obtain ⟨v, r'⟩ := vr
      rw [h3] at h
      replace h : some (some (⟨.IDENTIFIER, v⟩ : Token), r') = some (t?, r) := h
      simp only [Option.some.injEq, Prod.mk.injEq] at h
      have hx5 : matchIdent (a :: (s' ++ c :: post)) = some (v, r' ++ c :: post) :=
        matchIdent_extend hic post h3
      rw [hx5, ← h.1, ← h.2]
    | none =>
    rw [h3] at h
    have hx6 : matchIdent (a :: (s' ++ c :: post)) = none :=
      matchIdent_none_cons h3 (s' ++ c :: post)
    rw [hx6]
    cases h4 : matchSingle (fun d => d = '=') (a :: s') with
    | some vr =>
      obtain ⟨v, r'⟩ := vr
      rw [h4] at h
      replace h : some (some (⟨.ASSIGN, v⟩ : Token), r') = some (t?, r) := h
      simp only [Option.some.injEq, Prod.mk.injEq] at h
      have hx7 : matchSingle (fun d => d = '=') (a :: (s' ++ c :: post)) = some (v, r' ++ c :: post) :=
        matchSingle_extend (c :: post) h4
      rw [hx7, ← h.1, ← h.2]
    | none =>
    rw [h4] at h
    have hx8 : matchSingle (fun d => d = '=') (a :: (s' ++ c :: post)) = none :=
      matchSingle_none_cons h4 (s' ++ c :: post)
    rw [hx8]
    cases h5 : matchSingle isOpChar (a :: s') with
    | some vr =>
      obtain ⟨v, r'⟩ := vr
      rw [h5] at h
      replace h : some (some (⟨.OPERATOR, v⟩ : Token), r') = some (t?, r) := h
      simp only [Option.some.injEq, Prod.mk.injEq] at h
      have hx9 : matchSingle isOpChar (a :: (s' ++ c :: post)) = some (v, r' ++ c :: post) :=
        matchSingle_extend (c :: post) h5
      rw [hx9, ← h.1, ← h.2]
    | none =>
    rw [h5] at h
    have hx10 : matchSingle isOpChar (a :: (s' ++ c :: post)) = none :=
      matchSingle_none_cons h5 (s' ++ c :: post)
    rw [hx10]
    cases h6 : matchSingle (fun d => d = '(') (a :: s') with
    | some vr =>
      obtain ⟨v, r'⟩ := vr
      rw [h6] at h
      replace h : some (some (⟨.LPAREN, v⟩ : Token), r') = some (t?, r) := h
      simp only [Option.some.injEq, Prod.mk.injEq] at h
      have hx11 : matchSingle (fun d => d = '(') (a :: (s' ++ c :: post)) = some (v, r' ++ c :: post) :=
        matchSingle_extend (c :: post) h6
      rw [hx11, ← h.1, ← h.2]
    | none =>
    rw [h6] at h
    have hx12 : matchSingle (fun d => d = '(') (a :: (s' ++ c :: post)) = none :=
      matchSingle_none_cons h6 (s' ++ c :: post)
    rw [hx12]
    cases h7 : matchSingle (fun d => d = ')') (a :: s') with
    | some vr =>
      obtain ⟨v, r'⟩ := vr
      rw [h7] at h
      replace h : some (some (⟨.RPAREN, v⟩ : Token), r') = some (t?, r) := h
      simp only [Option.some.injEq, Prod.mk.injEq] at h
      have hx13 : matchSingle (fun d => d = ')') (a :: (s' ++ c :: post)) = some (v, r' ++ c :: post) :=
        matchSingle_extend (c :: post) h7
      rw [hx13, ← h.1, ← h.2]
    | none =>
    rw [h7] at h
    have hx14 : matchSingle (fun d => d = ')') (a :: (s' ++ c :: post)) = none :=
      matchSingle_none_cons h7 (s' ++ c :: post)
    rw [hx14]
    cases h8 : matchSingle (fun d => d = lbraceChar) (a :: s') with
    | some vr =>
      obtain ⟨v, r'⟩ := vr
      rw [h8] at h
      replace h : some (some (⟨.LBRACE, v⟩ : Token), r') = some (t?, r) := h
      simp only [Option.some.injEq, Prod.mk.injEq] at h
      have hx15 : matchSingle (fun d => d = lbraceChar) (a :: (s' ++ c :: post)) = some (v, r' ++ c :: post) :=
        matchSingle_extend (c :: post) h8
      rw [hx15, ← h.1, ← h.2]
    | none =>
    rw [h8] at h
    have hx16 : matchSingle (fun d => d = lbraceChar) (a :: (s' ++ c :: post)) = none :=
      matchSingle_none_cons h8 (s' ++ c :: post)
    rw [hx16]
    cases h9 : matchSingle (fun d => d = rbraceChar) (a :: s') with
    | some vr =>
      obtain ⟨v, r'⟩ := vr
      rw [h9] at h
      replace h : some (some (⟨.RBRACE, v⟩ : Token), r') = some (t?, r) := h
      simp only [Option.some.injEq, Prod.mk.injEq] at h
      have hx17 : matchSingle (fun d => d = rbraceChar) (a :: (s' ++ c :: post)) = some (v, r' ++ c :: post) :=
        matchSingle_extend (c :: post) h9
      rw [hx17, ← h.1, ← h.2]
    | none =>
    rw [h9] at h
    have hx18 : matchSingle (fun d => d = rbraceChar) (a :: (s' ++ c :: post)) = none :=
      matchSingle_none_cons h9 (s' ++ c :: post)
    rw [hx18]
    cases h10 : matchSingle (fun d => d = nlChar) (a :: s') with
    | some vr =>
      obtain ⟨v, r'⟩ := vr
      rw [h10] at h
      replace h : some (some (⟨.NEWLINE, v⟩ : Token), r') = some (t?, r) := h
      simp only [Option.some.injEq, Prod.mk.injEq] at h
      have hx19 : matchSingle (fun d => d = nlChar) (a :: (s' ++ c :: post)) = some (v, r' ++ c :: post) :=
        matchSingle_extend (c :: post) h10
      rw [hx19, ← h.1, ← h.2]
    | none =>
    rw [h10] at h
    have hx20 : matchSingle (fun d => d = nlChar) (a :: (s' ++ c :: post)) = none :=
      matchSingle_none_cons h10 (s' ++ c :: post)
    rw [hx20]
    cases h11 : matchSingle isSkipChar (a :: s') with
    | some vr =>
      obtain ⟨v, r'⟩ := vr
      rw [h11] at h
      replace h : some ((none : Option Token), r') = some (t?, r) := h
      simp only [Option.some.injEq, Prod.mk.injEq] at h
      have hx21 : matchSingle isSkipChar (a :: (s' ++ c :: post)) = some (v, r' ++ c :: post) :=
        matchSingle_extend (c :: post) h11
      rw [hx21, ← h.1, ← h.2]
    | none =>
      rw [h11] at h
      replace h : (none : Option (Option Token × List Char)) = some (t?, r) := h
      cases h

/-- After scanning any prefix that tokenizes successfully, a
`noCategoryChar` makes the lexer raise `Unexpected character` naming that
character, with the cursor (`self.current_pos`) at that character's
offset. -/
theorem tokenize_extend_fail :
    ∀ fuel pre (c : Char) post fuel2 pos, pre.length ≤ fuel → (pre ++ c :: post).length ≤ fuel2 →
      noCategoryChar c = true → (∃ ts, tokenizeFuel fuel pre = .ok ts) →
      tokenizeFuel fuel2 (pre ++ c :: post)
          = .error ("Unexpected character: " ++ String.singleton c)
        ∧ lexFailPosFuel fuel2 pos (pre ++ c :: post) = some (pos + pre.length) := by
  intro fuel
  induction fuel with
  | zero =>
    intro pre c post fuel2 pos h1 h2 hc _
    have hpre : pre = [] := List.length_eq_zero.mp (Nat.le_zero.mp h1)
    subst hpre
    cases fuel2 with
    | zero => simp at h2
    | succ g2 =>
      constructor
      · show tokenizeFuel (g2 + 1) (c :: post) = _
        unfold tokenizeFuel
        rw [scanOne_noCat hc post]
      · show lexFailPosFuel (g2 + 1) pos (c :: post) = some (pos + 0)
        unfold lexFailPosFuel
        rw [scanOne_noCat hc post]
        rfl
  | succ g ih =>
    intro pre c post fuel2 pos h1 h2 hc hok
    cases pre with
    | nil =>
      cases fuel2 with
      | zero => simp at h2
      | succ g2 =>
        constructor
        · show tokenizeFuel (g2 + 1) (c :: post) = _
          unfold tokenizeFuel
          rw [scanOne_noCat hc post]
        · show lexFailPosFuel (g2 + 1) pos (c :: post) = some (pos + 0)
          unfold lexFailPosFuel
          rw [scanOne_noCat hc post]
          rfl
    | cons a pre' =>
      obtain ⟨ts, hok⟩ := hok
      unfold tokenizeFuel at hok
      cases hsc : scanOne (a :: pre') with
      | none =>
        rw [hsc] at hok
        replace hok : (Except.error ("Unexpected character: " ++ String.singleton a)
            : Except String (List Token)) = .ok ts := hok
        cases hok
      | some p =>
        obtain ⟨t?, r⟩ := p
        rw [hsc] at hok
        obtain ⟨v, hv, hvr, _⟩ := scanOne_spec hsc
        have hv1 : 1 ≤ v.length := List.length_pos.mpr hv
        have hvlen : v.length + r.length = pre'.length + 1 := by
          have hl : (v ++ r).length = (a :: pre').length := by rw [hvr]
          simpa [Nat.add_comm] using hl
        have hrg : r.length ≤ g := by
          simp only [List.length_cons] at h1; omega
        have hrecov : ∃ ts', tokenizeFuel g r = .ok ts' := by
          cases t? with
          | none => exact ⟨ts, hok⟩
          | some t =>
            replace hok : (match tokenizeFuel g r with
                | Except.ok ts => Except.ok (t :: ts)
                | Except.error e => Except.error e) = Except.ok ts := hok
            cases hrec : tokenizeFuel g r with
            | ok ts' => exact ⟨ts', rfl⟩
            | error e => rw [hrec] at hok; simp at hok
        cases fuel2 with
        | zero => simp at h2
        | succ g2 =>
          have hlen2 : (r ++ c :: post).length ≤ g2 := by
            simp only [List.length_append, List.length_cons] at h2 ⊢
            omega
          have hext : scanOne (a :: (pre' ++ c :: post)) = some (t?, r ++ c :: post) :=
            scanOne_extend hc post hsc
          obtain ⟨ihT, ihP⟩ := ih r c post g2
            (pos + ((a :: (pre' ++ c :: post)).length - (r ++ c :: post).length))
            hrg hlen2 hc hrecov
          constructor
          · show tokenizeFuel (g2 + 1) ((a :: pre') ++ c :: post) = _
            simp only [List.cons_append]
            unfold tokenizeFuel
            rw [hext]
            cases t? with
            | none => exact ihT
            | some t =>
              show (match tokenizeFuel g2 (r ++ c :: post) with
                  | Except.ok ts => Except.ok (t :: ts)
                  | Except.error e => Except.error e) = _
              rw [ihT]
          · show lexFailPosFuel (g2 + 1) pos ((a :: pre') ++ c :: post)
              = some (pos + (a :: pre').length)
            simp only [List.cons_append]
            unfold lexFailPosFuel
            rw [hext]
            show lexFailPosFuel g2
                (pos + ((a :: (pre' ++ c :: post)).length - (r ++ c :: post).length))
                (r ++ c :: post) = some (pos + (a :: pre').length)
            rw [ihP]
            simp only [Option.some.injEq, List.length_append, List.length_cons]
            omega

/-- `tokenize` on an input made of a well-tokenizing prefix, a character
matching no category, and anything after, fails with the `Unexpected
character` message naming exactly that character, the cursor resting at
its offset. -/
theorem tokenize_fail_at_noCat {pre : List Char} {c : Char} (post : List Char)
    (hc : noCategoryChar c = true) (hok : ∃ ts, tokenize pre = .ok ts) :
    tokenize (pre ++ c :: post) = .error ("Unexpected character: " ++ String.singleton c)
    ∧ lexFailPos (pre ++ c :: post) = some pre.length := by
  have h := tokenize_extend_fail pre.length pre c post (pre ++ c :: post).length 0
    le_rfl le_rfl hc hok
  simpa [tokenize, lexFailPos] using h

/-! ### Monotonicity in fuel of the parser loops: a non-`div` result is
stable under giving more fuel, so "`ok` at some fuel" means the Python
loop terminates with that value. -/

theorem termLoop_mono : ∀ f₁ f₂ (node : ASTNode) (st : PState), f₁ ≤ f₂ →
    termLoop f₁ node st ≠ .div → termLoop f₂ node st = termLoop f₁ node st := by
  intro f₁
  induction f₁ with
  | zero => intro f₂ node st _ hnd; exact absurd rfl hnd
  | succ g ih =>
    intro f₂ node st hle hnd
    cases f₂ with
    | zero => exact absurd hle (by omega)
    | succ g₂ =>
      have hg : g ≤ g₂ := by omega
      unfold termLoop at hnd ⊢
      by_cases hcond : (st.current.type = TType.OPERATOR
          && (st.current.value = ['*'] || st.current.value = ['/'])) = true
      · rw [if_pos hcond, if_pos hcond]
        rw [if_pos hcond] at hnd
        cases heat : eat .OPERATOR st with
        | error e => rfl
        | ok st1 =>
          rw [heat] at hnd
          replace hnd : (match factor st1 with
              | Except.error e => Res.err e
              | Except.ok (right, st2) =>
                termLoop g (ASTNode.binaryOperation node st.current.value right) st2)
            ≠ Res.div := hnd
          show (match factor st1 with
              | Except.error e => Res.err e
              | Except.ok (right, st2) =>
                termLoop g₂ (ASTNode.binaryOperation node st.current.value right) st2)
            = (match factor st1 with
              | Except.error e => Res.err e
              | Except.ok (right, st2) =>
                termLoop g (ASTNode.binaryOperation node st.current.value right) st2)
          cases hfac : factor st1 with
          | error e => rfl
          | ok pr =>
            obtain ⟨right, st2⟩ := pr
            rw [hfac] at hnd
            exact ih g₂ (ASTNode.binaryOperation node st.current.value right) st2 hg hnd
      · rw [if_neg hcond, if_neg hcond]

theorem term_mono {f₁ f₂ : Nat} {st : PState} (hle : f₁ ≤ f₂) (hnd : term f₁ st ≠ .div) :
    term f₂ st = term f₁ st := by
  unfold term at hnd ⊢
  cases hfac : factor st with
  | error e => rfl
  | ok pr =>
    obtain ⟨node, st1⟩ := pr
    rw [hfac] at hnd
    exact termLoop_mono f₁ f₂ node st1 hle hnd

theorem exprLoop_mono : ∀ f₁ f₂ (node : ASTNode) (st : PState), f₁ ≤ f₂ →
    exprLoop f₁ node st ≠ .div → exprLoop f₂ node st = exprLoop f₁ node st := by
  intro f₁
  induction f₁ with
  | zero => intro f₂ node st _ hnd; exact absurd rfl hnd
  | succ g ih =>
    intro f₂ node st hle hnd
    cases f₂ with
    | zero => exact absurd hle (by omega)
    | succ g₂ =>
      have hg : g ≤ g₂ := by omega
      unfold exprLoop at hnd ⊢
      by_cases hcond : (st.current.type = TType.OPERATOR
          && (st.current.value = ['+'] || st.current.value = ['-'])) = true
      · rw [if_pos hcond, if_pos hcond]
        rw [if_pos hcond] at hnd
        cases heat : eat .OPERATOR st with
        | error e => rfl
        | ok st1 =>
          rw [heat] at hnd
          replace hnd : (match term g st1 with
              | Res.div => Res.div
              | Res.err e => Res.err e
              | Res.ok (right, st2) =>
                exprLoop g (ASTNode.binaryOperation node st.current.value right) st2)
            ≠ Res.div := hnd
          show (match term g₂ st1 with
              | Res.div => Res.div
              | Res.err e => Res.err e
              | Res.ok (right, st2) =>
                exprLoop g₂ (ASTNode.binaryOperation node st.current.value right) st2)
            = (match term g st1 with
              | Res.div => Res.div
              | Res.err e => Res.err e
              | Res.ok (right, st2) =>
                exprLoop g (ASTNode.binaryOperation node st.current.value right) st2)
          by_cases hdiv : term g st1 = .div
          · rw [hdiv] at hnd
            exact absurd rfl hnd
          · rw [term_mono hg hdiv]
            cases hterm : term g st1 with
            | div => exact absurd hterm hdiv
            | err e => rfl
            | ok pr =>
              obtain ⟨right, st2⟩ := pr
              rw [hterm] at hnd
              exact ih g₂ (ASTNode.binaryOperation node st.current.value right) st2 hg hnd
      · rw [if_neg hcond, if_neg hcond]

theorem expr_mono {f₁ f₂ : Nat} {st : PState} (hle : f₁ ≤ f₂) (hnd : expr f₁ st ≠ .div) :
    expr f₂ st = expr f₁ st := by
  unfold expr at hnd ⊢
  by_cases hdiv : term f₁ st = .div
  · exact absurd (by rw [hdiv]) hnd
  · rw [term_mono hle hdiv]
    cases hterm : term f₁ st with
    | div => exact absurd hterm hdiv
    | err e => rfl
    | ok pr =>
      obtain ⟨node, st1⟩ := pr
      rw [hterm] at hnd
      exact exprLoop_mono f₁ f₂ node st1 hle hnd

theorem parse_mono {f₁ f₂ : Nat} {tokens : List Token} (hle : f₁ ≤ f₂)
    (hnd : parse f₁ tokens ≠ .div) : parse f₂ tokens = parse f₁ tokens := by
  unfold parse at hnd ⊢
  cases hinit : parserInit tokens with
  | error e => rfl
  | ok st =>
    rw [hinit] at hnd
    replace hnd : (match expr f₁ st with
        | Res.div => Res.div
        | Res.err e => Res.err e
        | Res.ok (node, s2) => Res.ok node) ≠ Res.div := hnd
    show (match expr f₂ st with
        | Res.div => Res.div
        | Res.err e => Res.err e
        | Res.ok (node, s2) => Res.ok node)
      = (match expr f₁ st with
        | Res.div => Res.div
        | Res.err e => Res.err e
        | Res.ok (node, s2) => Res.ok node)
    by_cases hdiv : expr f₁ st = .div
    · rw [hdiv] at hnd
      exact absurd rfl hnd
    · rw [expr_mono hle hdiv]

theorem pipeline_mono {f₁ f₂ : Nat} {code : List Char} (hle : f₁ ≤ f₂)
    (hnd : pipeline f₁ code ≠ .div) : pipeline f₂ code = pipeline f₁ code := by
  unfold pipeline at hnd ⊢
  cases htok : tokenize code with
  | error e => rfl
  | ok ts =>
    rw [htok] at hnd
    replace hnd : (match parse f₁ ts with
        | Res.div => Res.div
        | Res.err e => Res.err e
        | Res.ok node =>
          match visit node with
          | Except.error e => Res.err e
          | Except.ok v => Res.ok v) ≠ Res.div := hnd
    show (match parse f₂ ts with
        | Res.div => Res.div
        | Res.err e => Res.err e
        | Res.ok node =>
          match visit node with
          | Except.error e => Res.err e
          | Except.ok v => Res.ok v)
      = (match parse f₁ ts with
        | Res.div => Res.div
        | Res.err e => Res.err e
        | Res.ok node =>
          match visit node with
          | Except.error e => Res.err e
          | Except.ok v => Res.ok v)
    by_cases hdiv : parse f₁ ts = .div
    · rw [hdiv] at hnd
      exact absurd rfl hnd
    · rw [parse_mono hle hdiv]

/-! ### Python whitespace -/

theorem pyStrip_all_skip {s : List Char} (h : ∀ c ∈ s, isSkipChar c = true) :
    pyStrip s = [] := by
  have h1 : s.dropWhile isPyWS = [] := by
    rw [List.dropWhile_eq_nil_iff]
    intro x hx
    have hx' := h x hx
    simp only [isSkipChar, Bool.or_eq_true, decide_eq_true_eq] at hx'
    rcases hx' with rfl | rfl <;> decide
  simp [pyStrip, h1]

/-! ### Small-step facts about the parser used by several claims -/

/-- `eat` with a matching kind when the cursor is at (or past) the final
token: the index still increments but `current_token` is left unchanged
(the clamp). -/
theorem eat_pastEnd (t : TType) (st : PState) (hty : st.current.type = t)
    (hge : st.tokens.length ≤ st.index + 1) :
    eat t st = .ok ⟨st.tokens, st.index + 1, st.current⟩ := by
  unfold eat
  rw [if_pos hty, dif_neg (show ¬(st.index + 1 < st.tokens.length) by omega)]

/-- `factor` at a non-NUMBER token returns Python `None` without
consuming anything. -/
theorem factor_nonNumber (st : PState) (hty : ¬(st.current.type = TType.NUMBER)) :
    factor st = .ok (.pyNone, st) := by
  unfold factor
  rw [if_neg hty]

/-- The `term` loop exits at once when the current token is not `*`/`/`. -/
theorem termLoop_exit (fuel : Nat) (node : ASTNode) (st : PState)
    (hcond : (st.current.type = TType.OPERATOR
      && (st.current.value = ['*'] || st.current.value = ['/'])) = false) :
    termLoop (fuel + 1) node st = .ok (node, st) := by
  unfold termLoop
  rw [if_neg (show ¬((st.current.type = TType.OPERATOR
    && (st.current.value = ['*'] || st.current.value = ['/'])) = true) by simp [hcond])]

/-- `term` at a non-NUMBER token that is also not a `*`/`/` operator:
`factor` yields `None` and the loop exits immediately. -/
theorem term_stuck (fuel : Nat) (st : PState) (hty : ¬(st.current.type = TType.NUMBER))
    (hcond : (st.current.type = TType.OPERATOR
      && (st.current.value = ['*'] || st.current.value = ['/'])) = false) :
    term (fuel + 1) st = .ok (.pyNone, st) := by
  unfold term
  rw [factor_nonNumber st hty]
  exact termLoop_exit fuel .pyNone st hcond

/-- One unfolding of the `expr` loop when the current token is `+`/`-`. -/
theorem exprLoop_step (fuel : Nat) (node : ASTNode) (st : PState)
    (hcond : (st.current.type = TType.OPERATOR
      && (st.current.value = ['+'] || st.current.value = ['-'])) = true) :
    exprLoop (fuel + 1) node st
      = match eat TType.OPERATOR st with
        | Except.error e => Res.err e
        | Except.ok st1 =>
          match term fuel st1 with
          | Res.div => Res.div
          | Res.err e => Res.err e
          | Res.ok (right, st2) =>
            exprLoop fuel (ASTNode.binaryOperation node st.current.value right) st2 := by
  simp only [exprLoop]
  rw [if_pos hcond]

/-- The heart of the non-termination on `2+`: once the cursor has gone
past the final `+` token, the clamped `current_token` stays that `+`, so
each round of the `expr` loop eats it again, `term` contributes `None`,
and the loop state repeats with only the index growing. -/
theorem exprLoop_plus_div : ∀ fuel (node : ASTNode) (i : Nat), 2 ≤ i →
    exprLoop fuel node ⟨[⟨.NUMBER, ['2']⟩, ⟨.OPERATOR, ['+']⟩], i, ⟨.OPERATOR, ['+']⟩⟩ = .div := by
  intro fuel
  induction fuel with
  | zero => intro node i hi; rfl
  | succ g ih =>
    intro node i hi
    rw [exprLoop_step g node ⟨[⟨.NUMBER, ['2']⟩, ⟨.OPERATOR, ['+']⟩], i, ⟨.OPERATOR, ['+']⟩⟩ rfl]
    have heat : eat TType.OPERATOR ⟨[⟨.NUMBER, ['2']⟩, ⟨.OPERATOR, ['+']⟩], i, ⟨.OPERATOR, ['+']⟩⟩
        = .ok ⟨[⟨.NUMBER, ['2']⟩, ⟨.OPERATOR, ['+']⟩], i + 1, ⟨.OPERATOR, ['+']⟩⟩ :=
      eat_pastEnd TType.OPERATOR _ rfl (by simp only [List.length_cons, List.length_nil]; omega)
    rw [heat]
    show (match term g ⟨[⟨.NUMBER, ['2']⟩, ⟨.OPERATOR, ['+']⟩], i + 1, ⟨.OPERATOR, ['+']⟩⟩ with
        | Res.div => Res.div
        | Res.err e => Res.err e
        | Res.ok (right, st2) =>
          exprLoop g (ASTNode.binaryOperation node ['+'] right) st2) = Res.div
    cases g with
    | zero => rfl
    | succ k =>
      rw [term_stuck k ⟨[⟨.NUMBER, ['2']⟩, ⟨.OPERATOR, ['+']⟩], i + 1, ⟨.OPERATOR, ['+']⟩⟩
        (fun h => TType.noConfusion h) rfl]
      exact ih (ASTNode.binaryOperation node ['+'] .pyNone) (i + 1) (by omega)

/-- Composing the three pipeline stages on given results. -/
theorem pipeline_eval (fuel : Nat) (code : List Char) (ts : List Token) (node : ASTNode)
    (v : Option Rat) (ht : tokenize code = .ok ts) (hp : parse fuel ts = .ok node)
    (hv : visit node = .ok v) : pipeline fuel code = .ok v := by
  unfold pipeline
  rw [ht]
  show (match parse fuel ts with
      | Res.div => Res.div
      | Res.err e => Res.err e
      | Res.ok node =>
        match visit node with
        | Except.error e => Res.err e
        | Except.ok v => Res.ok v) = Res.ok v
  rw [hp]
  show (match visit node with
      | Except.error e => Res.err e
      | Except.ok v => Res.ok v) = Res.ok v
  rw [hv]

/-- A pipeline whose evaluation stage raises propagates that error. -/
theorem pipeline_visit_err (fuel : Nat) (code : List Char) (ts : List Token) (node : ASTNode)
    (e : String) (ht : tokenize code = .ok ts) (hp : parse fuel ts = .ok node)
    (hv : visit node = .error e) : pipeline fuel code = .err e := by
  unfold pipeline
  rw [ht]
  show (match parse fuel ts with
      | Res.div => Res.div
      | Res.err e => Res.err e
      | Res.ok node =>
        match visit node with
        | Except.error e => Res.err e
        | Except.ok v => Res.ok v) = Res.err e
  rw [hp]
  show (match visit node with
      | Except.error e => Res.err e
      | Except.ok v => Res.ok v) = Res.err e
  rw [hv]

/-! ## Claims -/

/-- C1 counterexample: on input `(2+3)` no `ParseError` (indeed no error
at all) is raised: `factor` sees the LPAREN, falls through returning
Python `None` without consuming it, the `term`/`expr` loops never run,
`parse` returns `None`, and the pipeline completes normally with the
value `None` — contradicting the claim that the pipeline fails with a
`ParseError` for parenthesized input. -/
theorem paren_no_parse_error_counterexample :
    tokenize "(2+3)".data = .ok [⟨.LPAREN, ['(']⟩, ⟨.NUMBER, ['2']⟩, ⟨.OPERATOR, ['+']⟩,
      ⟨.NUMBER, ['3']⟩, ⟨.RPAREN, [')']⟩]
    ∧ parse 10 [⟨.LPAREN, ['(']⟩, ⟨.NUMBER, ['2']⟩, ⟨.OPERATOR, ['+']⟩, ⟨.NUMBER, ['3']⟩,
      ⟨.RPAREN, [')']⟩] = .ok .pyNone
    ∧ pipeline 10 "(2+3)".data = .ok none := by
  refine ⟨by decide, by decide, by decide⟩

/-- C1 (amended): for the input `(2+3)`, `parse` terminates returning
Python `None` (no `ParseError`, no error of any kind), the pipeline
returns the value `None` rather than a number, and the REPL prints the
line `None`. -/
theorem paren_pipeline_returns_none : ∀ fuel, 10 ≤ fuel →
    parse fuel [⟨.LPAREN, ['(']⟩, ⟨.NUMBER, ['2']⟩, ⟨.OPERATOR, ['+']⟩, ⟨.NUMBER, ['3']⟩,
      ⟨.RPAREN, [')']⟩] = .ok .pyNone
    ∧ pipeline fuel "(2+3)".data = .ok none
    ∧ repl fuel ["(2+3)".data] = .pending ["None"] := by
  intro fuel hf
  have hp : parse 10 [⟨.LPAREN, ['(']⟩, ⟨.NUMBER, ['2']⟩, ⟨.OPERATOR, ['+']⟩, ⟨.NUMBER, ['3']⟩,
      ⟨.RPAREN, [')']⟩] = .ok .pyNone := by decide
  have hpipe10 : pipeline 10 "(2+3)".data = .ok none := by decide
  have hp' := (parse_mono hf (by rw [hp]; intro h; cases h)).trans hp
  have hpipe := (pipeline_mono hf (by rw [hpipe10]; intro h; cases h)).trans hpipe10
  refine ⟨hp', hpipe, ?_⟩
  unfold repl
  rw [if_neg (by decide), hpipe]
  rfl

/-- C1 witness. -/
theorem paren_pipeline_returns_none_witness :
    parse 10 [⟨.LPAREN, ['(']⟩, ⟨.NUMBER, ['2']⟩, ⟨.OPERATOR, ['+']⟩, ⟨.NUMBER, ['3']⟩,
      ⟨.RPAREN, [')']⟩] = .ok .pyNone
    ∧ pipeline 10 "(2+3)".data = .ok none
    ∧ repl 10 ["(2+3)".data] = .pending ["None"] :=
  paren_pipeline_returns_none 10 (Nat.le_refl 10)

/-- C2: `eat` on a matching token kind never reads out of range: the
token list is unchanged, the index increments, the new `current_token`
is again the token at the clamped index `min index (length - 1)` (a real
in-range position), after consuming at or past the final token the
current token is exactly the last token, and a further `eat` of that
same (matching) kind succeeds again, re-reading that last token instead
of raising. -/
theorem eat_clamped_invariant (st : PState) (t : TType) (st' : PState)
    (hne : st.tokens ≠ [])
    (hcur : st.current = st.tokens.getD (min st.index (st.tokens.length - 1)) ⟨.NUMBER, []⟩)
    (heat : eat t st = .ok st') :
    st'.tokens = st.tokens ∧ st'.index = st.index + 1
    ∧ st'.current = st.tokens.getD (min st'.index (st.tokens.length - 1)) ⟨.NUMBER, []⟩
    ∧ min st'.index (st.tokens.length - 1) < st.tokens.length
    ∧ (st.tokens.length ≤ st.index + 1 →
        st'.current = st.tokens.getLastD ⟨.NUMBER, []⟩
        ∧ eat st'.current.type st' = .ok ⟨st.tokens, st.index + 2, st'.current⟩) := by
  have hlen : 0 < st.tokens.length := List.length_pos.mpr hne
  unfold eat at heat
  by_cases hty : st.current.type = t
  · rw [if_pos hty] at heat
    by_cases hlt : st.index + 1 < st.tokens.length
    · rw [dif_pos hlt] at heat
      obtain rfl : (⟨st.tokens, st.index + 1, st.tokens.get ⟨st.index + 1, hlt⟩⟩ : PState)
          = st' := by exact congrArg id (by injection heat)
      refine ⟨rfl, rfl, ?_, ?_, ?_⟩
      · show st.tokens.get ⟨st.index + 1, hlt⟩
          = st.tokens.getD (min (st.index + 1) (st.tokens.length - 1)) ⟨.NUMBER, []⟩
        have hmin : min (st.index + 1) (st.tokens.length - 1) = st.index + 1 := by omega
        rw [hmin, List.getD_eq_getElem?_getD, List.getElem?_eq_getElem hlt]
        rfl
      · show min (st.index + 1) (st.tokens.length - 1) < st.tokens.length
        omega
      · intro hge
        omega
    · rw [dif_neg hlt] at heat
      obtain rfl : (⟨st.tokens, st.index + 1, st.current⟩ : PState) = st' := by
        exact congrArg id (by injection heat)
      have hmin2 : min (st.index + 1) (st.tokens.length - 1) = st.tokens.length - 1 := by omega
      have hmin1 : min st.index (st.tokens.length - 1) = st.tokens.length - 1 := by omega
      refine ⟨rfl, rfl, ?_, ?_, ?_⟩
      · show st.current = st.tokens.getD (min (st.index + 1) (st.tokens.length - 1)) ⟨.NUMBER, []⟩
        rw [hmin2, ← hmin1, ← hcur]
      · show min (st.index + 1) (st.tokens.length - 1) < st.tokens.length
        omega
      · intro _
        constructor
        · show st.current = st.tokens.getLastD ⟨.NUMBER, []⟩
          rw [getLastD_eq_getD, ← hmin1, ← hcur]
        · show eat st.current.type ⟨st.tokens, st.index + 1, st.current⟩
            = .ok ⟨st.tokens, st.index + 2, st.current⟩
          exact eat_pastEnd st.current.type ⟨st.tokens, st.index + 1, st.current⟩ rfl
            (show st.tokens.length ≤ st.index + 1 + 1 by omega)
  · rw [if_neg hty] at heat
    cases heat

/-- C2 witness: a one-token list, consuming its final token. -/
theorem eat_clamped_invariant_witness :
    (⟨[⟨.NUMBER, ['1']⟩], 1, ⟨.NUMBER, ['1']⟩⟩ : PState).tokens = [⟨.NUMBER, ['1']⟩]
    ∧ (⟨[⟨.NUMBER, ['1']⟩], 1, ⟨.NUMBER, ['1']⟩⟩ : PState).index = 0 + 1
    ∧ (⟨[⟨.NUMBER, ['1']⟩], 1, ⟨.NUMBER, ['1']⟩⟩ : PState).current
      = ([⟨.NUMBER, ['1']⟩] : List Token).getD
          (min (⟨[⟨.NUMBER, ['1']⟩], 1, ⟨.NUMBER, ['1']⟩⟩ : PState).index
            (([⟨.NUMBER, ['1']⟩] : List Token).length - 1)) ⟨.NUMBER, []⟩
    ∧ min (⟨[⟨.NUMBER, ['1']⟩], 1, ⟨.NUMBER, ['1']⟩⟩ : PState).index
        (([⟨.NUMBER, ['1']⟩] : List Token).length - 1) < ([⟨.NUMBER, ['1']⟩] : List Token).length
    ∧ (([⟨.NUMBER, ['1']⟩] : List Token).length ≤ 0 + 1 →
        (⟨[⟨.NUMBER, ['1']⟩], 1, ⟨.NUMBER, ['1']⟩⟩ : PState).current
          = ([⟨.NUMBER, ['1']⟩] : List Token).getLastD ⟨.NUMBER, []⟩
        ∧ eat (⟨[⟨.NUMBER, ['1']⟩], 1, ⟨.NUMBER, ['1']⟩⟩ : PState).current.type
            ⟨[⟨.NUMBER, ['1']⟩], 1, ⟨.NUMBER, ['1']⟩⟩
          = .ok ⟨[⟨.NUMBER, ['1']⟩], 0 + 2, (⟨[⟨.NUMBER, ['1']⟩], 1, ⟨.NUMBER, ['1']⟩⟩ : PState).current⟩) :=
  eat_clamped_invariant ⟨[⟨.NUMBER, ['1']⟩], 0, ⟨.NUMBER, ['1']⟩⟩ .NUMBER
    ⟨[⟨.NUMBER, ['1']⟩], 1, ⟨.NUMBER, ['1']⟩⟩ (by decide) (by decide) (by decide)

/-- C3: on the token sequence of input `2+` the parser does not
terminate: after the final `+` is consumed the clamped current token
stays the OPERATOR `+` forever, each round of the `expr` loop eats it
again successfully, `factor` yields `None`, and the loop never exits —
formally, `parse` is `Res.div` (fuel exhausted) for every fuel. -/
theorem parse_two_plus_diverges :
    tokenize "2+".data = .ok [⟨.NUMBER, ['2']⟩, ⟨.OPERATOR, ['+']⟩]
    ∧ ∀ fuel, parse fuel [⟨.NUMBER, ['2']⟩, ⟨.OPERATOR, ['+']⟩] = .div := by
  refine ⟨by decide, ?_⟩
  intro fuel
  cases fuel with
  | zero => decide
  | succ g =>
    have hterm : term (g + 1) ⟨[⟨.NUMBER, ['2']⟩, ⟨.OPERATOR, ['+']⟩], 0, ⟨.NUMBER, ['2']⟩⟩
        = .ok (.number 2, ⟨[⟨.NUMBER, ['2']⟩, ⟨.OPERATOR, ['+']⟩], 1, ⟨.OPERATOR, ['+']⟩⟩) := by
      unfold term
      rw [show factor ⟨[⟨.NUMBER, ['2']⟩, ⟨.OPERATOR, ['+']⟩], 0, ⟨.NUMBER, ['2']⟩⟩
          = .ok (.number 2, ⟨[⟨.NUMBER, ['2']⟩, ⟨.OPERATOR, ['+']⟩], 1, ⟨.OPERATOR, ['+']⟩⟩)
        from by decide]
      exact termLoop_exit g (.number 2) ⟨[⟨.NUMBER, ['2']⟩, ⟨.OPERATOR, ['+']⟩], 1,
        ⟨.OPERATOR, ['+']⟩⟩ rfl
    have hexpr : expr (g + 1) ⟨[⟨.NUMBER, ['2']⟩, ⟨.OPERATOR, ['+']⟩], 0, ⟨.NUMBER, ['2']⟩⟩
        = .div := by
      unfold expr
      rw [hterm]
      show exprLoop (g + 1) (.number 2)
        ⟨[⟨.NUMBER, ['2']⟩, ⟨.OPERATOR, ['+']⟩], 1, ⟨.OPERATOR, ['+']⟩⟩ = .div
      rw [exprLoop_step g (.number 2)
        ⟨[⟨.NUMBER, ['2']⟩, ⟨.OPERATOR, ['+']⟩], 1, ⟨.OPERATOR, ['+']⟩⟩ rfl]
      rw [show eat TType.OPERATOR ⟨[⟨.NUMBER, ['2']⟩, ⟨.OPERATOR, ['+']⟩], 1, ⟨.OPERATOR, ['+']⟩⟩
          = .ok ⟨[⟨.NUMBER, ['2']⟩, ⟨.OPERATOR, ['+']⟩], 2, ⟨.OPERATOR, ['+']⟩⟩ from by decide]
      show (match term g ⟨[⟨.NUMBER, ['2']⟩, ⟨.OPERATOR, ['+']⟩], 2, ⟨.OPERATOR, ['+']⟩⟩ with
          | Res.div => Res.div
          | Res.err e => Res.err e
          | Res.ok (right, st2) =>
            exprLoop g (ASTNode.binaryOperation (.number 2) ['+'] right) st2) = Res.div
      cases g with
      | zero => rfl
      | succ k =>
        rw [term_stuck k ⟨[⟨.NUMBER, ['2']⟩, ⟨.OPERATOR, ['+']⟩], 2, ⟨.OPERATOR, ['+']⟩⟩
          (fun h => TType.noConfusion h) rfl]
        exact exprLoop_plus_div (k + 1) (ASTNode.binaryOperation (.number 2) ['+'] .pyNone) 2
          (Nat.le_refl 2)
    unfold parse
    show (match expr (g + 1) ⟨[⟨.NUMBER, ['2']⟩, ⟨.OPERATOR, ['+']⟩], 0, ⟨.NUMBER, ['2']⟩⟩ with
        | Res.div => Res.div
        | Res.err e => Res.err e
        | Res.ok (node, s2) => Res.ok node) = Res.div
    rw [hexpr]

/-- C4: `/` is true (non-truncating) division — the pipeline on `7/2`
yields the exact value 7/2, which is 3.5 and not a truncated 3 — and on
`5/0` evaluation raises the divide-by-zero error (Python
`ZeroDivisionError`, message `division by zero`) instead of returning a
value. -/
theorem division_semantics : ∀ fuel, 10 ≤ fuel →
    pipeline fuel "7/2".data = .ok (some (7 / 2 : Rat))
    ∧ (7 / 2 : Rat) = 3.5 ∧ (7 / 2 : Rat) ≠ 3
    ∧ pipeline fuel "5/0".data = .err "division by zero" := by
  intro fuel hf
  have h72 : pipeline 10 "7/2".data = .ok (some (7 / 2 : Rat)) := by
    refine pipeline_eval 10 _ [⟨.NUMBER, ['7']⟩, ⟨.OPERATOR, ['/']⟩, ⟨.NUMBER, ['2']⟩]
      (.binaryOperation (.number 7) ['/'] (.number 2)) _ (by decide) (by decide) ?_
    simp [visit, pyDiv]
  have h50 : pipeline 10 "5/0".data = .err "division by zero" := by
    refine pipeline_visit_err 10 _ [⟨.NUMBER, ['5']⟩, ⟨.OPERATOR, ['/']⟩, ⟨.NUMBER, ['0']⟩]
      (.binaryOperation (.number 5) ['/'] (.number 0)) _ (by decide) (by decide) ?_
    simp [visit, pyDiv]
  refine ⟨(pipeline_mono hf (by rw [h72]; intro h; cases h)).trans h72, by norm_num, by norm_num,
    (pipeline_mono hf (by rw [h50]; intro h; cases h)).trans h50⟩

/-- C4 witness. -/
theorem division_semantics_witness :
    pipeline 10 "7/2".data = .ok (some (7 / 2 : Rat))
    ∧ (7 / 2 : Rat) = 3.5 ∧ (7 / 2 : Rat) ≠ 3
    ∧ pipeline 10 "5/0".data = .err "division by zero" :=
  division_semantics 10 (Nat.le_refl 10)

/-- C5: multiplication binds tighter than addition — `2+3*4` parses as
`2 + (3 * 4)` (the `*` fold happens inside `term`, below the `+` fold of
`expr`) and the pipeline yields 14. -/
theorem precedence_mul_over_add : ∀ fuel, 10 ≤ fuel →
    parse fuel [⟨.NUMBER, ['2']⟩, ⟨.OPERATOR, ['+']⟩, ⟨.NUMBER, ['3']⟩, ⟨.OPERATOR, ['*']⟩,
      ⟨.NUMBER, ['4']⟩]
      = .ok (.binaryOperation (.number 2) ['+'] (.binaryOperation (.number 3) ['*'] (.number 4)))
    ∧ pipeline fuel "2+3*4".data = .ok (some (14 : Rat)) := by
  intro fuel hf
  have hp : parse 10 [⟨.NUMBER, ['2']⟩, ⟨.OPERATOR, ['+']⟩, ⟨.NUMBER, ['3']⟩, ⟨.OPERATOR, ['*']⟩,
      ⟨.NUMBER, ['4']⟩]
      = .ok (.binaryOperation (.number 2) ['+'] (.binaryOperation (.number 3) ['*'] (.number 4))) := by
    decide
  have hpipe : pipeline 10 "2+3*4".data = .ok (some (14 : Rat)) := by
    refine pipeline_eval 10 _ [⟨.NUMBER, ['2']⟩, ⟨.OPERATOR, ['+']⟩, ⟨.NUMBER, ['3']⟩,
      ⟨.OPERATOR, ['*']⟩, ⟨.NUMBER, ['4']⟩]
      (.binaryOperation (.number 2) ['+'] (.binaryOperation (.number 3) ['*'] (.number 4)))
      _ (by decide) hp ?_
    simp [visit, pyArith]
    norm_num
  exact ⟨(parse_mono hf (by rw [hp]; intro h; cases h)).trans hp,
    (pipeline_mono hf (by rw [hpipe]; intro h; cases h)).trans hpipe⟩

/-- C5 witness. -/
theorem precedence_mul_over_add_witness :
    parse 10 [⟨.NUMBER, ['2']⟩, ⟨.OPERATOR, ['+']⟩, ⟨.NUMBER, ['3']⟩, ⟨.OPERATOR, ['*']⟩,
      ⟨.NUMBER, ['4']⟩]
      = .ok (.binaryOperation (.number 2) ['+'] (.binaryOperation (.number 3) ['*'] (.number 4)))
    ∧ pipeline 10 "2+3*4".data = .ok (some (14 : Rat)) :=
  precedence_mul_over_add 10 (Nat.le_refl 10)

/-- C6: same-precedence operators associate to the left — `10-2-3`
evaluates to 5 (not 11), because each further operator wraps the node
built so far as `left`; correspondingly `2*3*4` parses as `(2*3)*4`. -/
theorem left_associativity : ∀ fuel, 10 ≤ fuel →
    pipeline fuel "10-2-3".data = .ok (some (5 : Rat))
    ∧ (5 : Rat) ≠ 11
    ∧ tokenize "2*3*4".data = .ok [⟨.NUMBER, ['2']⟩, ⟨.OPERATOR, ['*']⟩, ⟨.NUMBER, ['3']⟩,
      ⟨.OPERATOR, ['*']⟩, ⟨.NUMBER, ['4']⟩]
    ∧ parse fuel [⟨.NUMBER, ['2']⟩, ⟨.OPERATOR, ['*']⟩, ⟨.NUMBER, ['3']⟩, ⟨.OPERATOR, ['*']⟩,
      ⟨.NUMBER, ['4']⟩]
      = .ok (.binaryOperation (.binaryOperation (.number 2) ['*'] (.number 3)) ['*'] (.number 4)) := by
  intro fuel hf
  have hpipe : pipeline 10 "10-2-3".data = .ok (some (5 : Rat)) := by
    refine pipeline_eval 10 _ [⟨.NUMBER, ['1', '0']⟩, ⟨.OPERATOR, ['-']⟩, ⟨.NUMBER, ['2']⟩,
      ⟨.OPERATOR, ['-']⟩, ⟨.NUMBER, ['3']⟩]
      (.binaryOperation (.binaryOperation (.number 10) ['-'] (.number 2)) ['-'] (.number 3))
      _ (by decide) (by decide) ?_
    simp [visit, pyArith]
    norm_num
  have hp : parse 10 [⟨.NUMBER, ['2']⟩, ⟨.OPERATOR, ['*']⟩, ⟨.NUMBER, ['3']⟩, ⟨.OPERATOR, ['*']⟩,
      ⟨.NUMBER, ['4']⟩]
      = .ok (.binaryOperation (.binaryOperation (.number 2) ['*'] (.number 3)) ['*'] (.number 4)) := by
    decide
  exact ⟨(pipeline_mono hf (by rw [hpipe]; intro h; cases h)).trans hpipe, by norm_num, by decide,
    (parse_mono hf (by rw [hp]; intro h; cases h)).trans hp⟩

/-- C6 witness. -/
theorem left_associativity_witness :
    pipeline 10 "10-2-3".data = .ok (some (5 : Rat))
    ∧ (5 : Rat) ≠ 11
    ∧ tokenize "2*3*4".data = .ok [⟨.NUMBER, ['2']⟩, ⟨.OPERATOR, ['*']⟩, ⟨.NUMBER, ['3']⟩,
      ⟨.OPERATOR, ['*']⟩, ⟨.NUMBER, ['4']⟩]
    ∧ parse 10 [⟨.NUMBER, ['2']⟩, ⟨.OPERATOR, ['*']⟩, ⟨.NUMBER, ['3']⟩, ⟨.OPERATOR, ['*']⟩,
      ⟨.NUMBER, ['4']⟩]
      = .ok (.binaryOperation (.binaryOperation (.number 2) ['*'] (.number 3)) ['*'] (.number 4)) :=
  left_associativity 10 (Nat.le_refl 10)

/-- C7 counterexample: the round trip is NOT the identity for every
tokenizable input — `1 2` tokenizes to two NUMBER tokens `1`,`2`, but
tokenizing the concatenation `12` of their literals produces the single
NUMBER token `12`, a different sequence: removing skipped whitespace can
merge adjacent tokens. -/
theorem roundtrip_whitespace_counterexample :
    tokenize "1 2".data = .ok [⟨.NUMBER, ['1']⟩, ⟨.NUMBER, ['2']⟩]
    ∧ concatValues [⟨.NUMBER, ['1']⟩, ⟨.NUMBER, ['2']⟩] = "12".data
    ∧ tokenize "12".data = .ok [⟨.NUMBER, ['1', '2']⟩]
    ∧ [(⟨.NUMBER, ['1', '2']⟩ : Token)] ≠ [⟨.NUMBER, ['1']⟩, ⟨.NUMBER, ['2']⟩] := by
  decide

/-- C7 (amended): restricted to inputs containing no SKIP (space/tab)
characters, the round trip holds — the concatenation of the produced
token literals is the input itself, so retokenizing it reproduces
exactly the same token sequence. -/
theorem roundtrip_no_whitespace (s : List Char) (ts : List Token)
    (hnw : ∀ c ∈ s, isSkipChar c = false) (h : tokenize s = .ok ts) :
    concatValues ts = s ∧ tokenize (concatValues ts) = .ok ts := by
  have hc : concatValues ts = s := tokenizeFuel_concat s.length s ts (Nat.le_refl _) hnw h
  exact ⟨hc, by rw [hc]; exact h⟩

/-- C7 witness. -/
theorem roundtrip_no_whitespace_witness :
    concatValues [⟨.NUMBER, ['1']⟩, ⟨.OPERATOR, ['+']⟩, ⟨.NUMBER, ['2']⟩] = "1+2".data
    ∧ tokenize (concatValues [⟨.NUMBER, ['1']⟩, ⟨.OPERATOR, ['+']⟩, ⟨.NUMBER, ['2']⟩])
      = .ok [⟨.NUMBER, ['1']⟩, ⟨.OPERATOR, ['+']⟩, ⟨.NUMBER, ['2']⟩] :=
  roundtrip_no_whitespace "1+2".data [⟨.NUMBER, ['1']⟩, ⟨.OPERATOR, ['+']⟩, ⟨.NUMBER, ['2']⟩]
    (by decide) (by decide)

/-- C8 counterexample: the `LexError` message does NOT name the
offending character's position — the inputs `@` and ` @` fail at
offsets 0 and 1 respectively, yet raise the exact same exception
message `Unexpected character: @` (the Python code interpolates only
`self.code[self.current_pos]`, not `self.current_pos`), so the error
cannot name the offset. -/
theorem lexerror_offset_counterexample :
    tokenize "@".data = .error "Unexpected character: @"
    ∧ tokenize " @".data = .error "Unexpected character: @"
    ∧ lexFailPos "@".data = some 0
    ∧ lexFailPos " @".data = some 1
    ∧ tokenize "@".data = tokenize " @".data := by
  decide

/-- C8 (amended): for every input consisting of a prefix on which
`tokenize` succeeds, then a character matching no lexical category,
then anything: `tokenize` fails immediately with a `LexError` naming
the exact offending character (but not its offset), the cursor at the
moment of failure standing exactly at that character's offset — the
character is not skipped. -/
theorem lexerror_names_offending_char (pre : List Char) (c : Char) (post : List Char)
    (hc : noCategoryChar c = true) (hok : ∃ ts, tokenize pre = .ok ts) :
    tokenize (pre ++ c :: post) = .error ("Unexpected character: " ++ String.singleton c)
    ∧ lexFailPos (pre ++ c :: post) = some pre.length :=
  tokenize_fail_at_noCat post hc hok

/-- C8 witness: `1+@2` fails naming `@` at offset 2. -/
theorem lexerror_names_offending_char_witness :
    tokenize ("1+".data ++ '@' :: "2".data)
      = .error ("Unexpected character: " ++ String.singleton '@')
    ∧ lexFailPos ("1+".data ++ '@' :: "2".data) = some "1+".data.length :=
  lexerror_names_offending_char "1+".data '@' "2".data (by decide)
    ⟨[⟨.NUMBER, ['1']⟩, ⟨.OPERATOR, ['+']⟩], by decide⟩

/-- C9: the interactive loop never terminates because of a stage
failure — on any error from any stage it prints the single line
`Error: <message>` and continues the session exactly as it would from
the remaining input lines — and the loop stops (breaks) only on a line
whose stripped text is `exit`. -/
theorem repl_error_recovery :
    (∀ fuel (line : List Char) (rest : List (List Char)) (e : String),
      pyStrip line ≠ "exit".data → pipeline fuel line = .err e →
      repl fuel (line :: rest) = consOut ("Error: " ++ e) (repl fuel rest))
    ∧ (∀ fuel (lines : List (List Char)) (outs : List String),
      repl fuel lines = .exited outs → ∃ l, l ∈ lines ∧ pyStrip l = "exit".data) := by
  constructor
  · intro fuel line rest e hne hpipe
    simp only [repl]
    rw [if_neg hne, hpipe]
  · intro fuel lines
    induction lines with
    | nil =>
      intro outs h
      replace h : (ReplResult.pending [] : ReplResult) = .exited outs := h
      cases h
    | cons line rest ih =>
      intro outs h
      unfold repl at h
      by_cases hex : pyStrip line = "exit".data
      · exact ⟨line, List.mem_cons_self line rest, hex⟩
      · rw [if_neg hex] at h
        cases hp : pipeline fuel line with
        | div =>
          rw [hp] at h
          replace h : (ReplResult.hung [] : ReplResult) = .exited outs := h
          cases h
        | err e =>
          rw [hp] at h
          replace h : consOut ("Error: " ++ e) (repl fuel rest) = .exited outs := h
          cases hr : repl fuel rest with
          | exited o =>
            obtain ⟨l, hl, hes⟩ := ih o hr
            exact ⟨l, List.mem_cons_of_mem line hl, hes⟩
          | pending o =>
            rw [hr] at h
            replace h : ReplResult.pending (("Error: " ++ e) :: o) = .exited outs := h
            cases h
          | hung o =>
            rw [hr] at h
            replace h : ReplResult.hung (("Error: " ++ e) :: o) = .exited outs := h
            cases h
        | ok v =>
          rw [hp] at h
          replace h : consOut (pyShow v) (repl fuel rest) = .exited outs := h
          cases hr : repl fuel rest with
          | exited o =>
            obtain ⟨l, hl, hes⟩ := ih o hr
            exact ⟨l, List.mem_cons_of_mem line hl, hes⟩
          | pending o =>
            rw [hr] at h
            replace h : ReplResult.pending ((pyShow v) :: o) = .exited outs := h
            cases h
          | hung o =>
            rw [hr] at h
            replace h : ReplResult.hung ((pyShow v) :: o) = .exited outs := h
            cases h

/-- C9 witness: a lexically bad line is reported and the loop goes on;
an `exit` line is the one that exits. -/
theorem repl_error_recovery_witness :
    repl 1 ["@".data] = consOut ("Error: " ++ "Unexpected character: @") (repl 1 [])
    ∧ ∃ l, l ∈ ["exit".data] ∧ pyStrip l = "exit".data :=
  ⟨repl_error_recovery.1 1 "@".data [] "Unexpected character: @" (by decide) (by decide),
   repl_error_recovery.2 1 ["exit".data] [] (by decide)⟩

/-- C10: the empty token sequence (an empty or all-whitespace line:
every character skipped) makes the `Parser` constructor read
`tokens[0]` and raise Python IndexError `list index out of range`; in
the loop this is caught and printed as an `Error:` line (such a line
cannot be the `exit` line) and no result value is produced. -/
theorem blank_line_parser_index_error :
    parserInit [] = .error "list index out of range"
    ∧ ∀ fuel (code : List Char) (rest : List (List Char)), tokenize code = .ok [] →
      pyStrip code ≠ "exit".data
      ∧ pipeline fuel code = .err "list index out of range"
      ∧ repl fuel (code :: rest) = consOut "Error: list index out of range" (repl fuel rest) := by
  refine ⟨rfl, ?_⟩
  intro fuel code rest htok
  have hskip : ∀ c ∈ code, isSkipChar c = true :=
    tokenizeFuel_ok_nil_all_skip code.length code htok
  have hstrip : pyStrip code = [] := pyStrip_all_skip hskip
  have hne : pyStrip code ≠ "exit".data := by rw [hstrip]; decide
  have hpipe : pipeline fuel code = .err "list index out of range" := by
    unfold pipeline
    rw [htok]
    rfl
  refine ⟨hne, hpipe, ?_⟩
  simp only [repl]
  rw [if_neg hne, hpipe]
  rfl

/-- C10 witness: a single-space line. -/
theorem blank_line_parser_index_error_witness :
    pyStrip " ".data ≠ "exit".data
    ∧ pipeline 1 " ".data = .err "list index out of range"
    ∧ repl 1 [" ".data] = consOut "Error: list index out of range" (repl 1 []) :=
  blank_line_parser_index_error.2 1 " ".data [] (by decide)

end MyLang
